import Mathlib

/-!
Verification of the Roman/Arabic numeral converter `ArabRzym`
(src/Cpp/lista_2/ArabRzym.cpp) against its specification.

The C++ code is shallowly embedded: `std::string` becomes Lean `String`,
C++ `int` becomes `Int`, thrown `ArabRzymException` values become the
`.error` case of `Except ArabRzymException`.  The `while` loops of
`arab2rzym` are modelled as structurally recursive functions with an
explicit fuel argument counting loop iterations; the fuel supplied at the
call sites is proved sufficient (the loop exit condition holds at the
returned state, see `forLoop_table_fst` and `whileLoop_one_pass`), so the
fuel never truncates an execution of the source loops.
-/

/-- Exception carrying a message, mirroring `ArabRzymException` in the source. -/
structure ArabRzymException where
  message : String
deriving DecidableEq, Repr

instance {ε α : Type} [DecidableEq ε] [DecidableEq α] : DecidableEq (Except ε α) := fun a b =>
  match a, b with
  | .error e, .error f =>
    if h : e = f then isTrue (by rw [h]) else isFalse (by simpa using h)
  | .error _, .ok _ => isFalse (by simp)
  | .ok _, .error _ => isFalse (by simp)
  | .ok x, .ok y =>
    if h : x = y then isTrue (by rw [h]) else isFalse (by simpa using h)

/-- `int liczbyArab[] = {1000, 900, 500, 400, 100, 90, 50, 40, 10, 9, 5, 4, 1};` -/
def liczbyArab : List Nat := [1000, 900, 500, 400, 100, 90, 50, 40, 10, 9, 5, 4, 1]

/-- `std::string liczbyRzym[] = {"M", "CM", "D", "CD", "C", "XC", "L", "XL", "X", "IX", "V", "IV", "I"};` -/
def liczbyRzym : List String :=
  ["M", "CM", "D", "CD", "C", "XC", "L", "XL", "X", "IX", "V", "IV", "I"]

/-- C `toupper` in the default locale: maps `'a'`-`'z'` to `'A'`-`'Z'` and
leaves every other character unchanged. -/
def toupper (c : Char) : Char :=
  if 'a' ≤ c ∧ c ≤ 'z' then Char.ofNat (c.toNat - 32) else c

/-- `ArabRzym::isValidRzym`: every character, after `toupper`, is one of the
seven Roman glyphs.  The source returns `false` on the first character that
differs from all seven, and `true` if none does. -/
def isValidRzym (input : String) : Bool :=
  input.data.all fun c =>
    let rzym := toupper c
    rzym == 'I' || rzym == 'V' || rzym == 'X' || rzym == 'L' ||
      rzym == 'C' || rzym == 'D' || rzym == 'M'

/-- `ArabRzym::isValidArab`: every character is a decimal digit (`isdigit`). -/
def isValidArab (input : String) : Bool :=
  input.data.all fun c => c.isDigit

/-- `ArabRzym::getArabic`: scan the 13 table entries, remembering the value of
the last entry whose glyph string equals the argument; `0` if none matches. -/
def getArabic (rzymDigit : String) : Nat :=
  (liczbyRzym.zip liczbyArab).foldl
    (fun arabValue p => if p.1 == rzymDigit then p.2 else arabValue) 0

/-- The inner `while (liczbyArab[i] <= arab)` loop of `arab2rzym`: subtract the
table value `v` and append its glyph `s` while `v` still fits, with `fuel`
bounding the number of iterations. -/
def innerWhile (v : Nat) (s : String) : Nat → Nat → String → Nat × String
  | 0, arab, result => (arab, result)
  | fuel + 1, arab, result =>
    if v ≤ arab then innerWhile v s fuel (arab - v) (result ++ s)
    else (arab, result)

/-- The `for (int i = 0; i < 13; i++)` loop of `arab2rzym`: run the inner
while loop for each table entry in order.  Each inner loop gets the current
remainder as fuel, which is enough since every table value is at least 1. -/
def forLoop : List (Nat × String) → Nat → String → Nat × String
  | [], arab, result => (arab, result)
  | (v, s) :: rest, arab, result =>
    let p := innerWhile v s arab arab result
    forLoop rest p.1 p.2

/-- The outer `while (arab != 0)` loop of `arab2rzym`, with `fuel` bounding
the number of passes over the table. -/
def whileLoop : Nat → Nat → String → String
  | 0, _, result => result
  | fuel + 1, arab, result =>
    if arab ≠ 0 then
      let p := forLoop (liczbyArab.zip liczbyRzym) arab result
      whileLoop fuel p.1 p.2
    else result

/-- `ArabRzym::arab2rzym`: range check, then the greedy loop starting from the
empty string.  A fuel of `arab` outer passes is supplied; one pass already
drives the remainder to zero (proved in `forLoop_table_fst`), so the fuel is
never exhausted. -/
def arab2rzym (arab : Int) : Except ArabRzymException String :=
  if arab ≤ 0 ∨ 4000 < arab then
    .error ⟨"Liczba z poza zakresu."⟩
  else
    .ok (whileLoop arab.toNat arab.toNat "")

/-- The scanning loop of `rzym2arab`: at each position take the single-glyph
value; if a next character exists and the two-character string is in the
table (nonzero value), take the pair value and skip the next character. -/
def sumLoop : List Char → Nat
  | [] => 0
  | c :: rest =>
    let arabValue := getArabic (String.mk [c])
    match rest with
    | [] => arabValue
    | c2 :: rest2 =>
      let pairValue := getArabic (String.mk [c, c2])
      if pairValue ≠ 0 then pairValue + sumLoop rest2
      else arabValue + sumLoop (c2 :: rest2)

/-- The in-place uppercasing loop `for (i) rzym[i] = toupper(rzym[i])` of
`rzym2arab`, as a function from the original string to the mutated one. -/
def upperStr (s : String) : String := String.mk (s.data.map toupper)

/-- `ArabRzym::rzym2arab`: empty check, uppercase in place, glyph validation,
left-to-right summation with subtractive pairs, then re-encode the sum and
compare with the (uppercased) input; any exception thrown by the inner
`arab2rzym` call propagates. -/
def rzym2arab (rzym : String) : Except ArabRzymException Int :=
  if rzym = "" then .error ⟨"Wartość pusta."⟩
  else if isValidRzym (upperStr rzym) then
    match arab2rzym ((sumLoop (upperStr rzym).data : Nat) : Int) with
    | .error e => .error e
    | .ok s =>
      if s ≠ upperStr rzym then .error ⟨"Nieprawidłowa liczba rzymska: " ++ upperStr rzym⟩
      else .ok ((sumLoop (upperStr rzym).data : Nat) : Int)
  else .error ⟨"Nieprawidłowa liczba rzymska: " ++ upperStr rzym⟩

/-- Decidable statement of decode-after-encode at one input: summing the
glyphs of the greedy encoding of `n` gives back exactly `n`. -/
def sumcheck (n : Nat) : Bool := decide (sumLoop (whileLoop n n "").data = n)

/-- The seven Roman glyph characters, used to describe the encoder's output. -/
def glyphChars : List Char := ['M', 'C', 'D', 'X', 'L', 'I', 'V']

set_option maxRecDepth 100000 in
theorem sumcheck_chunk1 : ∀ k : Nat, k < 1000 → sumcheck (k + 1) = true := by decide

set_option maxRecDepth 100000 in
theorem sumcheck_chunk2 : ∀ k : Nat, k < 1000 → sumcheck (k + 1001) = true := by decide

set_option maxRecDepth 100000 in
theorem sumcheck_chunk3 : ∀ k : Nat, k < 1000 → sumcheck (k + 2001) = true := by decide

set_option maxRecDepth 100000 in
theorem sumcheck_chunk4 : ∀ k : Nat, k < 1000 → sumcheck (k + 3001) = true := by decide

/-- Decode-after-encode identity on glyph lists, for every accepted input. -/
theorem sumLoop_whileLoop (n : Nat) (h1 : 1 ≤ n) (h2 : n ≤ 4000) :
    sumLoop (whileLoop n n "").data = n := by
  have h : sumcheck n = true := by
    rcases Nat.lt_or_ge n 1001 with hb | hb
    · have h := sumcheck_chunk1 (n - 1) (by omega)
      have e : n - 1 + 1 = n := by omega
      rwa [e] at h
    · rcases Nat.lt_or_ge n 2001 with hc | hc
      · have h := sumcheck_chunk2 (n - 1001) (by omega)
        have e : n - 1001 + 1001 = n := by omega
        rwa [e] at h
      · rcases Nat.lt_or_ge n 3001 with hd | hd
        · have h := sumcheck_chunk3 (n - 2001) (by omega)
          have e : n - 2001 + 2001 = n := by omega
          rwa [e] at h
        · have h := sumcheck_chunk4 (n - 3001) (by omega)
          have e : n - 3001 + 3001 = n := by omega
          rwa [e] at h
  unfold sumcheck at h
  exact of_decide_eq_true h

theorem data_append (a b : String) : (a ++ b).data = a.data ++ b.data := rfl

theorem innerWhile_fst_lt (v : Nat) (s : String) (hv : 1 ≤ v) :
    ∀ (fuel arab : Nat) (result : String), arab ≤ fuel →
      (innerWhile v s fuel arab result).1 < v := by
  intro fuel
  induction fuel with
  | zero =>
    intro arab result h
    simp only [innerWhile]
    omega
  | succ fuel ih =>
    intro arab result h
    rw [innerWhile]
    by_cases hva : v ≤ arab
    · rw [if_pos hva]
      exact ih (arab - v) (result ++ s) (by omega)
    · rw [if_neg hva]
      simp only
      omega

theorem forLoop_table_fst (arab : Nat) (result : String) :
    (forLoop (liczbyArab.zip liczbyRzym) arab result).1 = 0 := by
  have h1 : ∀ (a : Nat) (r : String), (innerWhile 1 "I" a a r).1 < 1 :=
    fun a r => innerWhile_fst_lt 1 "I" (le_refl 1) a a r (le_refl a)
  simp only [liczbyArab, liczbyRzym, List.zip, List.zipWith, forLoop]
  exact Nat.lt_one_iff.mp (h1 _ _)

theorem whileLoop_zero_arab (fuel : Nat) (result : String) : whileLoop fuel 0 result = result := by
  cases fuel <;> simp [whileLoop]

theorem whileLoop_one_pass (fuel arab : Nat) (result : String) (h : arab ≠ 0) :
    whileLoop (fuel + 1) arab result = (forLoop (liczbyArab.zip liczbyRzym) arab result).2 := by
  rw [whileLoop, if_pos h]
  simp only
  rw [forLoop_table_fst, whileLoop_zero_arab]

theorem innerWhile_mem_data (v : Nat) (s : String) :
    ∀ (fuel arab : Nat) (result : String) (c : Char),
      c ∈ (innerWhile v s fuel arab result).2.data → c ∈ result.data ∨ c ∈ s.data := by
  intro fuel
  induction fuel with
  | zero =>
    intro arab result c hc
    simp only [innerWhile] at hc
    exact Or.inl hc
  | succ fuel ih =>
    intro arab result c hc
    rw [innerWhile] at hc
    by_cases h : v ≤ arab
    · rw [if_pos h] at hc
      rcases ih (arab - v) (result ++ s) c hc with h2 | h2
      · rw [data_append] at h2
        rcases List.mem_append.mp h2 with h3 | h3
        · exact Or.inl h3
        · exact Or.inr h3
      · exact Or.inr h2
    · rw [if_neg h] at hc
      exact Or.inl hc

theorem forLoop_mem_data :
    ∀ (entries : List (Nat × String)) (arab : Nat) (result : String) (c : Char),
      c ∈ (forLoop entries arab result).2.data →
      c ∈ result.data ∨ ∃ p ∈ entries, c ∈ p.2.data := by
  intro entries
  induction entries with
  | nil =>
    intro arab result c hc
    simp only [forLoop] at hc
    exact Or.inl hc
  | cons e rest ih =>
    intro arab result c hc
    obtain ⟨v, s⟩ := e
    simp only [forLoop] at hc
    rcases ih _ _ c hc with h | ⟨p, hp, hcp⟩
    · rcases innerWhile_mem_data v s arab arab result c h with h2 | h2
      · exact Or.inl h2
      · exact Or.inr ⟨(v, s), by simp, h2⟩
    · exact Or.inr ⟨p, by simp [hp], hcp⟩

theorem whileLoop_mem_data :
    ∀ (fuel arab : Nat) (result : String) (c : Char),
      c ∈ (whileLoop fuel arab result).data →
      c ∈ result.data ∨ ∃ p ∈ liczbyArab.zip liczbyRzym, c ∈ p.2.data := by
  intro fuel
  induction fuel with
  | zero =>
    intro arab result c hc
    simp only [whileLoop] at hc
    exact Or.inl hc
  | succ fuel ih =>
    intro arab result c hc
    rw [whileLoop] at hc
    by_cases h : arab ≠ 0
    · rw [if_pos h] at hc
      simp only at hc
      rcases ih _ _ c hc with h2 | h2
      · exact forLoop_mem_data _ _ _ c h2
      · exact Or.inr h2
    · rw [if_neg h] at hc
      exact Or.inl hc

theorem table_chars : ∀ p ∈ liczbyArab.zip liczbyRzym, ∀ c ∈ p.2.data, c ∈ glyphChars := by
  decide

theorem whileLoop_chars (fuel arab : Nat) (c : Char)
    (hc : c ∈ (whileLoop fuel arab "").data) : c ∈ glyphChars := by
  rcases whileLoop_mem_data fuel arab "" c hc with h | ⟨p, hp, hcp⟩
  · have he : ("" : String).data = [] := rfl
    rw [he] at h
    exact absurd h (List.not_mem_nil c)
  · exact table_chars p hp c hcp

theorem ofNatAux_toNat (n : Nat) (h : n.isValidChar) : (Char.ofNatAux n h).toNat = n := rfl

theorem toupper_toNat {c : Char} (h1 : 'a' ≤ c) (h2 : c ≤ 'z') :
    (toupper c).toNat = c.toNat - 32 := by
  have n2 : c.toNat ≤ 122 := h2
  have hv : Nat.isValidChar (c.toNat - 32) := Or.inl (by omega)
  rw [toupper, if_pos ⟨h1, h2⟩]
  show (Char.ofNat (c.toNat - 32)).toNat = c.toNat - 32
  unfold Char.ofNat
  rw [dif_pos hv]
  exact ofNatAux_toNat _ hv

theorem toupper_not_lower (c : Char) : ¬('a' ≤ toupper c ∧ toupper c ≤ 'z') := by
  by_cases h : 'a' ≤ c ∧ c ≤ 'z'
  · obtain ⟨h1, h2⟩ := h
    intro hh
    obtain ⟨g1, g2⟩ := hh
    have gn : 97 ≤ (toupper c).toNat := g1
    have hn : 97 ≤ c.toNat := h1
    have hn2 : c.toNat ≤ 122 := h2
    rw [toupper_toNat h1 h2] at gn
    omega
  · intro hh
    rw [toupper, if_neg h] at hh
    exact h hh

theorem toupper_toupper (c : Char) : toupper (toupper c) = toupper c := by
  conv_lhs => rw [toupper]
  rw [if_neg (toupper_not_lower c)]

theorem data_mk (l : List Char) : (String.mk l).data = l := rfl

theorem data_empty : ("" : String).data = [] := rfl

theorem upperStr_upperStr (s : String) : upperStr (upperStr s) = upperStr s := by
  unfold upperStr
  rw [data_mk, List.map_map]
  congr 1
  exact List.map_congr_left fun a _ => toupper_toupper a

theorem upperStr_eq_empty {s : String} : upperStr s = "" ↔ s = "" := by
  constructor
  · intro h
    have hd : s.data.map toupper = [] := by
      have := congrArg String.data h
      rwa [upperStr, data_mk, data_empty] at this
    have hnil : s.data = [] := List.map_eq_nil_iff.mp hd
    cases s
    rw [data_mk] at hnil
    rw [hnil]
  · intro h
    rw [h]
    rfl

theorem toupper_glyph : ∀ c ∈ glyphChars, toupper c = c := by decide

theorem map_toupper_eq_self {l : List Char} (h : ∀ c ∈ l, c ∈ glyphChars) :
    l.map toupper = l := by
  induction l with
  | nil => rfl
  | cons a t ih =>
    have ha : toupper a = a := toupper_glyph a (h a (by simp))
    simp only [List.map_cons, ha, List.cons.injEq, true_and]
    exact ih fun c hc => h c (by simp [hc])

theorem isValidRzym_glyphs {s : String} (h : ∀ c ∈ s.data, c ∈ glyphChars) :
    isValidRzym s = true := by
  unfold isValidRzym
  rw [List.all_eq_true]
  intro c hc
  have hg := h c hc
  simp only [glyphChars, List.mem_cons, List.not_mem_nil, or_false] at hg
  rcases hg with rfl | rfl | rfl | rfl | rfl | rfl | rfl <;> decide

theorem isValidRzym_upperStr (s : String) : isValidRzym (upperStr s) = isValidRzym s := by
  unfold isValidRzym upperStr
  rw [data_mk, List.all_map]
  congr 1
  funext c
  simp only [Function.comp, toupper_toupper]

theorem arab2rzym_pos {n : Int} (h1 : 0 < n) (h2 : n ≤ 4000) :
    arab2rzym n = .ok (whileLoop n.toNat n.toNat "") := by
  unfold arab2rzym
  rw [if_neg (by omega)]

theorem mk_data (s : String) : String.mk s.data = s := by
  cases s
  rfl

theorem rzym2arab_whileLoop (n : Nat) (h1 : 1 ≤ n) (h2 : n ≤ 4000) :
    arab2rzym (n : Int) = .ok (whileLoop n n "") ∧
    rzym2arab (whileLoop n n "") = .ok (n : Int) := by
  have hsum := sumLoop_whileLoop n h1 h2
  have htn : ((n : Int)).toNat = n := Int.toNat_natCast n
  have henc : arab2rzym (n : Int) = .ok (whileLoop n n "") := by
    rw [arab2rzym_pos (by exact_mod_cast h1) (by exact_mod_cast h2), htn]
  refine ⟨henc, ?_⟩
  have hchars : ∀ c ∈ (whileLoop n n "").data, c ∈ glyphChars :=
    fun c hc => whileLoop_chars n n c hc
  have hne : whileLoop n n "" ≠ "" := by
    intro h0
    rw [h0, data_empty] at hsum
    simp only [sumLoop] at hsum
    omega
  have hupper : upperStr (whileLoop n n "") = whileLoop n n "" := by
    unfold upperStr
    rw [map_toupper_eq_self hchars, mk_data]
  have hvalid : isValidRzym (upperStr (whileLoop n n "")) = true := by
    rw [hupper]
    exact isValidRzym_glyphs hchars
  unfold rzym2arab
  rw [if_neg hne, if_pos (by rw [hvalid])]
  rw [hupper, hsum, henc]
  simp

/-- C1: for every integer n with 1 ≤ n ≤ 3999, encoding succeeds and decoding
the encoding returns exactly n, with no error raised on either side. -/
theorem c1_roundtrip_identity (n : Int) (h1 : 1 ≤ n) (h2 : n ≤ 3999) :
    ∃ s : String, arab2rzym n = .ok s ∧ rzym2arab s = .ok n := by
  have hn : n = ((n.toNat : Nat) : Int) := (Int.toNat_of_nonneg (by omega)).symm
  obtain ⟨ha, hr⟩ := rzym2arab_whileLoop n.toNat (by omega) (by omega)
  refine ⟨whileLoop n.toNat n.toNat "", ?_, ?_⟩
  · rw [hn]; exact ha
  · rw [hn]; exact hr

theorem c1_witness :
    (1 : Int) ≤ 1994 ∧ (1994 : Int) ≤ 3999 ∧
    ∃ s : String, arab2rzym 1994 = .ok s ∧ rzym2arab s = .ok 1994 :=
  ⟨by norm_num, by norm_num, c1_roundtrip_identity 1994 (by norm_num) (by norm_num)⟩

/-- C3: every string in the image of `arab2rzym` over its accepted range
decodes without error, and re-encoding the decoded value returns the very
same string. -/
theorem c3_canonical_roundtrip (s : String) (n : Int) (h1 : 1 ≤ n) (h2 : n ≤ 4000)
    (h : arab2rzym n = .ok s) :
    ∃ m : Int, rzym2arab s = .ok m ∧ arab2rzym m = .ok s := by
  have hn : n = ((n.toNat : Nat) : Int) := (Int.toNat_of_nonneg (by omega)).symm
  obtain ⟨ha, hr⟩ := rzym2arab_whileLoop n.toNat (by omega) (by omega)
  rw [hn] at h
  have hs : s = whileLoop n.toNat n.toNat "" := by
    rw [h] at ha
    exact (Except.ok.injEq _ _).mp ha
  subst hs
  exact ⟨((n.toNat : Nat) : Int), hr, ha⟩

theorem c3_witness :
    (1 : Int) ≤ 1994 ∧ (1994 : Int) ≤ 4000 ∧ arab2rzym 1994 = .ok "MCMXCIV" ∧
    ∃ m : Int, rzym2arab "MCMXCIV" = .ok m ∧ arab2rzym m = .ok "MCMXCIV" :=
  ⟨by norm_num, by norm_num, by decide,
   c3_canonical_roundtrip "MCMXCIV" 1994 (by norm_num) (by norm_num) (by decide)⟩

/-- C4: `arab2rzym` raises the range error exactly when n ≤ 0 or n > 4000,
and returns a string (the greedy encoding) for every n with 0 < n ≤ 4000. -/
theorem c4_range_error (n : Int) :
    (arab2rzym n = .error ⟨"Liczba z poza zakresu."⟩ ↔ n ≤ 0 ∨ 4000 < n) ∧
    (0 < n → n ≤ 4000 → arab2rzym n = .ok (whileLoop n.toNat n.toNat "")) := by
  constructor
  · constructor
    · intro h
      by_contra hc
      unfold arab2rzym at h
      rw [if_neg hc] at h
      exact Except.noConfusion h
    · intro h
      unfold arab2rzym
      rw [if_pos h]
  · intro h1 h2
    exact arab2rzym_pos h1 h2

theorem c4_witness :
    arab2rzym 0 = .error ⟨"Liczba z poza zakresu."⟩ ∧
    arab2rzym 4001 = .error ⟨"Liczba z poza zakresu."⟩ ∧
    arab2rzym 1994 = .ok (whileLoop (1994 : Int).toNat (1994 : Int).toNat "") :=
  ⟨(c4_range_error 0).1.mpr (Or.inl (by norm_num)),
   (c4_range_error 4001).1.mpr (Or.inr (by norm_num)),
   (c4_range_error 1994).2 (by norm_num) (by norm_num)⟩

/-- C5: `rzym2arab ""` fails with the empty-input error, and every non-empty
string with a character that is not a Roman glyph after uppercasing fails
with the invalid-character error. -/
theorem c5_empty_and_invalid_char (s : String) (h1 : s ≠ "") (h2 : isValidRzym s = false) :
    rzym2arab "" = .error ⟨"Wartość pusta."⟩ ∧
    rzym2arab s = .error ⟨"Nieprawidłowa liczba rzymska: " ++ upperStr s⟩ := by
  constructor
  · decide
  · have h2' : isValidRzym (upperStr s) = false := by
      rw [isValidRzym_upperStr]; exact h2
    unfold rzym2arab
    rw [if_neg h1, if_neg (by simp [h2'])]

theorem c5_witness :
    ("abc" : String) ≠ "" ∧ isValidRzym "abc" = false ∧
    (rzym2arab "" = .error ⟨"Wartość pusta."⟩ ∧
     rzym2arab "abc" = .error ⟨"Nieprawidłowa liczba rzymska: " ++ upperStr "abc"⟩) :=
  ⟨by decide, by decide, c5_empty_and_invalid_char "abc" (by decide) (by decide)⟩

/-- C6: `rzym2arab "MCMXCIV"` returns 1994 and `arab2rzym 1994` returns
`"MCMXCIV"`. -/
theorem c6_examples : rzym2arab "MCMXCIV" = .ok 1994 ∧ arab2rzym 1994 = .ok "MCMXCIV" := by
  constructor <;> decide

/-- C7: the classifiers are total Boolean functions on every string (they
always return `true` or `false`, never fail), both accept the empty string,
`isValidRzym "XYZ"` is `false` and `isValidArab "12a"` is `false`. -/
theorem c7_classifiers_total :
    (∀ s : String, isValidRzym s = true ∨ isValidRzym s = false) ∧
    (∀ s : String, isValidArab s = true ∨ isValidArab s = false) ∧
    isValidRzym "" = true ∧ isValidArab "" = true ∧
    isValidRzym "XYZ" = false ∧ isValidArab "12a" = false :=
  ⟨fun s => Bool.eq_false_or_eq_true (isValidRzym s),
   fun s => Bool.eq_false_or_eq_true (isValidArab s),
   by decide, by decide, by decide, by decide⟩

/-- C8: the greedy loop terminates: a single pass of the table drives any
nonzero remainder to exactly zero (hence strictly decreases it), and on the
accepted range `arab2rzym` totally returns the result of that single pass. -/
theorem c8_loop_terminates :
    (∀ (arab : Nat) (result : String), arab ≠ 0 →
        (forLoop (liczbyArab.zip liczbyRzym) arab result).1 = 0 ∧
        (forLoop (liczbyArab.zip liczbyRzym) arab result).1 < arab) ∧
    (∀ n : Int, 0 < n → n ≤ 4000 →
        arab2rzym n = .ok ((forLoop (liczbyArab.zip liczbyRzym) n.toNat "").2)) := by
  constructor
  · intro arab result h
    have h0 := forLoop_table_fst arab result
    exact ⟨h0, by omega⟩
  · intro n h1 h2
    rw [arab2rzym_pos h1 h2]
    obtain ⟨m, hm⟩ : ∃ m, n.toNat = m + 1 := ⟨n.toNat - 1, by omega⟩
    have hwl : whileLoop n.toNat n.toNat "" =
        (forLoop (liczbyArab.zip liczbyRzym) n.toNat "").2 := by
      conv_lhs => rw [hm]
      rw [whileLoop_one_pass m (m + 1) "" (Nat.succ_ne_zero m), ← hm]
    rw [hwl]

theorem c8_witness :
    (7 : Nat) ≠ 0 ∧
    ((forLoop (liczbyArab.zip liczbyRzym) 7 "").1 = 0 ∧
     (forLoop (liczbyArab.zip liczbyRzym) 7 "").1 < 7) ∧
    (0 : Int) < 7 ∧ (7 : Int) ≤ 4000 ∧
    arab2rzym 7 = .ok ((forLoop (liczbyArab.zip liczbyRzym) (7 : Int).toNat "").2) :=
  ⟨by decide, c8_loop_terminates.1 7 "" (by decide), by decide, by decide,
   c8_loop_terminates.2 7 (by decide) (by decide)⟩

/-- C9: `rzym2arab` and `isValidRzym` are invariant under uppercasing the
input (same value or the very same error), and in particular the lowercase
`"mcmxciv"` decodes to 1994. -/
theorem c9_case_insensitive :
    (∀ s : String,
        rzym2arab (upperStr s) = rzym2arab s ∧
        isValidRzym (upperStr s) = isValidRzym s) ∧
    rzym2arab "mcmxciv" = .ok 1994 := by
  constructor
  · intro s
    refine ⟨?_, isValidRzym_upperStr s⟩
    by_cases hs : s = ""
    · subst hs
      rfl
    · have hus : upperStr s ≠ "" := fun h => hs (upperStr_eq_empty.mp h)
      unfold rzym2arab
      rw [if_neg hus, if_neg hs, upperStr_upperStr]
  · decide

/-- C10: at the accepted upper boundary, `arab2rzym 4000` returns `"MMMM"`
and `rzym2arab "MMMM"` returns 4000 without error. -/
theorem c10_boundary : arab2rzym 4000 = .ok "MMMM" ∧ rzym2arab "MMMM" = .ok 4000 := by
  constructor <;> decide

/-- C2 counterexample: `"MMMMM"` is non-empty, consists only of valid glyphs
and is not the canonical encoding of its sum 5000 (that sum has no encoding
at all), yet `rzym2arab "MMMMM"` fails with the out-of-range error
propagated from the re-encoding step, not with the invalid-numeral error
the claim predicts. -/
theorem c2_counterexample :
    ("MMMMM" : String) ≠ "" ∧ isValidRzym "MMMMM" = true ∧
    arab2rzym ((sumLoop (upperStr "MMMMM").data : Nat) : Int) =
      .error ⟨"Liczba z poza zakresu."⟩ ∧
    rzym2arab "MMMMM" = .error ⟨"Liczba z poza zakresu."⟩ ∧
    rzym2arab "MMMMM" ≠ .error ⟨"Nieprawidłowa liczba rzymska: " ++ upperStr "MMMMM"⟩ :=
  ⟨by decide, by decide, by decide, by decide, by decide⟩

/-- C2 (amended): for every non-empty string of valid glyphs whose uppercased
form is not the canonical encoding of its left-to-right sum, `rzym2arab`
fails: with the invalid-numeral error when the sum lies in the encoder's
accepted range, and with the encoder's out-of-range error otherwise. -/
theorem c2_noncanonical_fails (s : String) (h1 : s ≠ "") (h2 : isValidRzym s = true)
    (h3 : arab2rzym ((sumLoop (upperStr s).data : Nat) : Int) ≠ .ok (upperStr s)) :
    rzym2arab s = .error
      (if ((sumLoop (upperStr s).data : Nat) : Int) ≤ 0 ∨
          4000 < ((sumLoop (upperStr s).data : Nat) : Int)
       then ⟨"Liczba z poza zakresu."⟩
       else ⟨"Nieprawidłowa liczba rzymska: " ++ upperStr s⟩) := by
  have h2' : isValidRzym (upperStr s) = true := by
    rw [isValidRzym_upperStr]; exact h2
  unfold rzym2arab
  rw [if_neg h1, if_pos (by rw [h2'])]
  by_cases hc : ((sumLoop (upperStr s).data : Nat) : Int) ≤ 0 ∨
      4000 < ((sumLoop (upperStr s).data : Nat) : Int)
  · have he : arab2rzym ((sumLoop (upperStr s).data : Nat) : Int) =
        .error ⟨"Liczba z poza zakresu."⟩ := by
      unfold arab2rzym
      rw [if_pos hc]
    rw [he, if_pos hc]
  · have he : arab2rzym ((sumLoop (upperStr s).data : Nat) : Int) =
        .ok (whileLoop ((sumLoop (upperStr s).data : Nat) : Int).toNat
          ((sumLoop (upperStr s).data : Nat) : Int).toNat "") := by
      unfold arab2rzym
      rw [if_neg hc]
    have hne : whileLoop ((sumLoop (upperStr s).data : Nat) : Int).toNat
        ((sumLoop (upperStr s).data : Nat) : Int).toNat "" ≠ upperStr s := by
      intro hh
      exact h3 (by rw [he, hh])
    rw [he, if_neg hc]
    rw [Int.toNat_natCast] at hne
    simp [hne]

theorem c2_witness :
    ("IIII" : String) ≠ "" ∧ isValidRzym "IIII" = true ∧
    arab2rzym ((sumLoop (upperStr "IIII").data : Nat) : Int) ≠ .ok (upperStr "IIII") ∧
    rzym2arab "IIII" = .error
      (if ((sumLoop (upperStr "IIII").data : Nat) : Int) ≤ 0 ∨
          4000 < ((sumLoop (upperStr "IIII").data : Nat) : Int)
       then ⟨"Liczba z poza zakresu."⟩
       else ⟨"Nieprawidłowa liczba rzymska: " ++ upperStr "IIII"⟩) :=
  ⟨by decide, by decide, by decide,
   c2_noncanonical_fails "IIII" (by decide) (by decide) (by decide)⟩
